import Mathlib

/-!
# calsync: `llama_jni.cpp`

A shallow embedding of the JNI inference bridge
(`app/src/main/cpp/llama_jni.cpp`): session construction (`nativeInit`),
teardown (`nativeFree`) and the request pipeline (`nativeComplete`:
tokenization, chunked prefill, bounded greedy generation).

Conventions of the embedding.

* llama.cpp is an external library.  Everything the bridge asks of it goes
  through the record `Runtime` (per-context operations, over an abstract
  context state `σ`) or `Loader` (model and context creation); the theorems
  quantify over these records, so they hold for every behaviour of the
  library.
* C++ `int`, `jint`, `llama_token`, `llama_pos` are `Int`.  Every arithmetic
  expression of the source stays far inside the 32-bit range on the paths
  modelled (positions are below `n_ctx`, counters below 256), so no wrap-around
  is introduced.  The one narrowing cast, `(uint32_t)nCtxClamped`, is written
  with its explicit `% 2 ^ 32`.
* `std::chrono::steady_clock` is an oracle `elapsed : Nat → Int`: `elapsed i`
  is the value of `elapsed_ms` read at the top of generation iteration `i`.
* `std::string` / `std::vector<char>` are `List Byte`.  A result of
  `nativeComplete` records both the `std::string output` and `returned`, the
  bytes `NewStringUTF` reads from `output.c_str()`: those before the first 0
  byte.  The decoding of these bytes (modified UTF-8) into a Java string is not
  modelled.
* Pointers are natural numbers, `0` being `nullptr`.  `delete` on an address
  that holds no live object is undefined behaviour and is reported as a
  `Fault`.
* Results carry ghost data that the source only logs: the list of library
  calls issued (`Call`), the number of loop iterations entered and the exit
  taken.
* C++ exceptions (the `catch` blocks, reached only on allocation failure) and
  the logging macros are left out.
-/

namespace LlamaJni

/-! ## Constants and data -/

/-- A `llama_token` (32-bit signed id). -/
abbrev Token := Int

/-- One C++ `char`. -/
abbrev Byte := Fin 256

/-- Source: `constexpr size_t kMaxOutputChars = 4096;` -/
def kMaxOutputChars : Nat := 4096

/-- Source: `constexpr int64_t kMaxGenMillis = 10000;` -/
def kMaxGenMillis : Int := 10000

/-- Source: `constexpr int kMinContextSize = 256;` -/
def kMinContextSize : Int := 256

/-- Source: `const int chunk_size = 256;` in `nativeComplete`. -/
def chunk_size : Nat := 256

/-- One slot of a `llama_batch` filled by hand: `token[j]`, `pos[j]`,
`seq_id[j][0]` (with `n_seq_id[j] = 1`) and `logits[j]`. -/
structure BatchEntry where
  token : Token
  pos : Int
  seq_id : Int
  logits : Bool
deriving DecidableEq, Repr

/-- The two ways the source builds a `llama_batch`: slots written one by one
into a batch from `llama_batch_init`, or `llama_batch_get_one(&tok, 1)`, whose
position, sequence and logits arrays are null and left to the library. -/
inductive Batch where
  | filled (entries : List BatchEntry)
  | get_one (token : Token)
deriving DecidableEq, Repr

/-- Per-context operations of llama.cpp used by `nativeComplete`.  The
vocabulary functions take a `const llama_vocab*` and are pure; the operations on
the `llama_context*` transform the context state `σ`. -/
structure Runtime (σ : Type) where
  /-- The value of `llama_n_ctx(ctx)`, as the `int` the source keeps in `n_ctx`. -/
  n_ctx : Int
  /-- Whether `llama_model_get_vocab(model)` is non-null. -/
  has_vocab : Bool
  /-- The call `llama_tokenize(vocab, text, len, buf, cap, true, true)`: the
  returned count and the tokens written to `buf`. -/
  tokenize : List Byte → Nat → Int × List Token
  /-- The call `llama_token_to_piece(vocab, tok, buf, cap, 0, true)`: the
  returned length and the bytes written to `buf`. -/
  token_to_piece : Token → Nat → Int × List Byte
  /-- The predicate `llama_vocab_is_eog(vocab, tok)`. -/
  is_eog : Token → Bool
  /-- The pair `llama_memory_seq_rm(mem, 0, -1, -1); llama_synchronize(ctx)`. -/
  seq_rm : σ → σ
  /-- The call `llama_decode(ctx, batch)`: status and new context state. -/
  decode : σ → Batch → Int × σ
  /-- Whether `llama_sampler_init_greedy()` is non-null. -/
  sampler_init : Bool
  /-- The call `llama_sampler_sample(sampler, ctx, -1)`. -/
  sample : σ → Token × σ

/-- Library calls recorded while a request runs.  `prefill_decode` and
`gen_decode` carry the status `llama_decode` returned; `gen_decode` also
carries the value of the source variable `n_pos` at the call. -/
inductive Call where
  | seq_rm
  | prefill_decode (batch : List BatchEntry) (status : Int)
  | sample (token : Token)
  | gen_decode (token : Token) (n_pos : Int) (status : Int)
deriving DecidableEq, Repr

/-- The semantics of `std::vector::resize(n)` with value `d` for new slots. -/
def resize {α : Type} (d : α) (v : List α) (n : Nat) : List α :=
  v.take n ++ List.replicate (n - v.length) d

/-- A callee writing `written` from the start of the buffer `buf`; the size of
the buffer does not change. -/
def overwrite {α : Type} (buf written : List α) : List α :=
  written.take buf.length ++ buf.drop written.length

/-! ## `nativeComplete`: tokenization -/

/-- Source lines 203-212: the token buffer and the single grow-and-retry.
Returns `n_tok` and the buffer `tokens` as they stand before the check
`n_tok <= 0`. -/
def tokenizePrompt {σ : Type} (R : Runtime σ) (prompt : List Byte) : Int × List Token :=
  let tokens : List Token := resize 0 [] (max (prompt.length + 32) 64)
  let r1 := R.tokenize prompt tokens.length
  let tokens := overwrite tokens r1.2
  let n_tok := r1.1
  if n_tok < 0 then
    let tokens := resize 0 tokens (-n_tok).toNat
    let r2 := R.tokenize prompt tokens.length
    (r2.1, overwrite tokens r2.2)
  else
    (n_tok, tokens)

/-- Source lines 327-337: the text appended to `output` for a sampled token
(64-byte buffer, one retry at the size the library asked for, nothing when the
final length is not positive).  `output.append(buf.data(), len)` appends exactly
`len` bytes; should the library report a length beyond the buffer, the bytes
read past its end are taken to be zero. -/
def tokenPiece {σ : Type} (R : Runtime σ) (next_token : Token) : List Byte :=
  let piece_buf : List Byte := List.replicate 64 0
  let r1 := R.token_to_piece next_token piece_buf.length
  let piece_buf := overwrite piece_buf r1.2
  let piece_len := r1.1
  let res : Int × List Byte :=
    if piece_len < 0 then
      let piece_buf := resize 0 piece_buf (-piece_len).toNat
      let r2 := R.token_to_piece next_token piece_buf.length
      (r2.1, overwrite piece_buf r2.2)
    else
      (piece_len, piece_buf)
  if res.1 > 0 then resize 0 res.2 res.1.toNat else []

/-! ## `nativeComplete`: prefill -/

/-- Source line 259: `batch.logits[idx] = true`. -/
def setLogits : List BatchEntry → Nat → List BatchEntry
  | [], _ => []
  | e :: es, 0 => { e with logits := true } :: es
  | e :: es, idx + 1 => e :: setLogits es idx

/-- Source lines 249-260: the batch built for the chunk starting at `i`. -/
def fillBatch (tokens : List Token) (n_tok i : Nat) : List BatchEntry :=
  let n_eval := min chunk_size (n_tok - i)
  let batch := (List.range n_eval).map fun j =>
    ({ token := tokens.getD (i + j) 0, pos := ((i + j : Nat) : Int), seq_id := 0,
       logits := false } : BatchEntry)
  if i + n_eval ≥ n_tok then setLogits batch (n_eval - 1) else batch

/-- Outcome of the prefill loop. -/
structure PrefillResult (σ : Type) where
  ok : Bool
  state : σ
  trace : List Call

/-- Source lines 241-267: `for (int i = 0; i < n_tok; i += chunk_size)`.
The recursion is on a fuel counter; `none` means the fuel ran out before the
loop condition became false. -/
def prefillLoop {σ : Type} (R : Runtime σ) (tokens : List Token) (n_tok : Nat) :
    Nat → Nat → σ → Option (PrefillResult σ)
  | fuel, i, s =>
    if i < n_tok then
      match fuel with
      | 0 => none
      | fuel + 1 =>
        let batch := fillBatch tokens n_tok i
        let d := R.decode s (Batch.filled batch)
        if d.1 ≠ 0 then
          some { ok := false, state := d.2, trace := [Call.prefill_decode batch d.1] }
        else
          match prefillLoop R tokens n_tok fuel (i + chunk_size) d.2 with
          | none => none
          | some r => some { r with trace := Call.prefill_decode batch d.1 :: r.trace }
    else
      some { ok := true, state := s, trace := [] }

/-- The prefill of a token vector, started at `i = 0` with one unit of fuel per
token. -/
def prefill {σ : Type} (R : Runtime σ) (tokens : List Token) (s : σ) :
    Option (PrefillResult σ) :=
  prefillLoop R tokens tokens.length tokens.length 0 s

/-! ## `nativeComplete`: generation loop -/

/-- The exit taken by the generation loop. -/
inductive StopReason where
  | Timeout
  | OutputSizeLimit
  | ContextFull
  | EndOfGeneration
  | DecodeError
  | TokenBudgetExhausted
deriving DecidableEq, Repr

/-- State at the exit of the generation loop. -/
structure GenResult (σ : Type) where
  output : List Byte
  n_pos : Int
  tokens_generated : Nat
  iters : Nat
  reason : StopReason
  state : σ
  trace : List Call

/-- Source lines 294-357: `for (int i = 0; i < capped_max_tokens; i++)`.
The first argument is `capped_max_tokens - i`, the number of iterations the
loop header still allows. -/
def genLoop {σ : Type} (R : Runtime σ) (elapsed : Nat → Int) :
    Nat → Nat → σ → List Byte → Int → Nat → GenResult σ
  | 0, _, s, output, n_pos, tokens_generated =>
    { output := output, n_pos := n_pos, tokens_generated := tokens_generated, iters := 0,
      reason := StopReason.TokenBudgetExhausted, state := s, trace := [] }
  | left + 1, i, s, output, n_pos, tokens_generated =>
    if elapsed i > kMaxGenMillis then
      { output := output, n_pos := n_pos, tokens_generated := tokens_generated, iters := 1,
        reason := StopReason.Timeout, state := s, trace := [] }
    else if output.length ≥ kMaxOutputChars then
      { output := output, n_pos := n_pos, tokens_generated := tokens_generated, iters := 1,
        reason := StopReason.OutputSizeLimit, state := s, trace := [] }
    else if n_pos ≥ R.n_ctx - 2 then
      { output := output, n_pos := n_pos, tokens_generated := tokens_generated, iters := 1,
        reason := StopReason.ContextFull, state := s, trace := [] }
    else
      let smp := R.sample s
      let next_token := smp.1
      if R.is_eog next_token then
        { output := output, n_pos := n_pos, tokens_generated := tokens_generated, iters := 1,
          reason := StopReason.EndOfGeneration, state := smp.2,
          trace := [Call.sample next_token] }
      else
        let output := output ++ tokenPiece R next_token
        let d := R.decode smp.2 (Batch.get_one next_token)
        if d.1 ≠ 0 then
          { output := output, n_pos := n_pos, tokens_generated := tokens_generated, iters := 1,
            reason := StopReason.DecodeError, state := d.2,
            trace := [Call.sample next_token, Call.gen_decode next_token n_pos d.1] }
        else
          let r := genLoop R elapsed left (i + 1) d.2 output (n_pos + 1) (tokens_generated + 1)
          { r with
            iters := r.iters + 1,
            trace := Call.sample next_token :: Call.gen_decode next_token n_pos d.1 :: r.trace }

/-- Source line 282:
`(int)std::min((jint)256, std::max((jint)1, maxTokens))`. -/
def capped_max_tokens (maxTokens : Int) : Int := min 256 (max 1 maxTokens)

/-! ## Sessions -/

/-- The class `LlamaContext`: two owning raw pointers. -/
structure LlamaContext where
  model : Nat
  ctx : Nat
deriving DecidableEq, Repr

/-- Source: `LlamaContext::isValid`. -/
def LlamaContext.isValid (c : LlamaContext) : Bool :=
  c.model != 0 && c.ctx != 0

/-- The return statement reached by `nativeComplete`. -/
inductive Outcome where
  | invalid_handle
  | empty_prompt
  | no_vocab
  | tokenization_failed
  | prompt_too_long
  | prefill_out_of_fuel
  | prefill_decode_failed
  | sampler_failed
  | generated (reason : StopReason)
deriving DecidableEq, Repr

/-- What a call of `nativeComplete` leaves behind. -/
structure CompleteResult (σ : Type) where
  /-- The `std::string output` at the return statement. -/
  output : List Byte
  /-- The bytes of the string handed back to the caller. -/
  returned : List Byte
  outcome : Outcome
  state : σ
  trace : List Call
  iters : Nat
  n_pos : Int

/-- What a reader of the C string `s.c_str()` sees: the bytes of `s` before its
first 0 byte. -/
def c_str (s : List Byte) : List Byte :=
  s.takeWhile fun b => b != 0

/-- An early `return env->NewStringUTF("")`. -/
def CompleteResult.empty {σ : Type} (o : Outcome) (s : σ) (tr : List Call) :
    CompleteResult σ :=
  { output := [], returned := [], outcome := o, state := s, trace := tr, iters := 0,
    n_pos := 0 }

/-- The final `return env->NewStringUTF(output.c_str())`, after the generation
loop left state `g`; `pre` are the calls made before the loop. -/
def CompleteResult.ofGen {σ : Type} (pre : List Call) (g : GenResult σ) : CompleteResult σ :=
  { output := g.output, returned := c_str g.output, outcome := Outcome.generated g.reason,
    state := g.state, trace := Call.seq_rm :: (pre ++ g.trace), iters := g.iters,
    n_pos := g.n_pos }

/-- Source lines 174-376: `nativeComplete`.  `llama_ctx` is the object the
handle points to (`none` for the null handle) and `s` the state of its
llama context. -/
def nativeComplete {σ : Type} (R : Runtime σ) (elapsed : Nat → Int)
    (llama_ctx : Option LlamaContext) (s : σ) (prompt : List Byte) (maxTokens : Int) :
    CompleteResult σ :=
  match llama_ctx with
  | none => CompleteResult.empty Outcome.invalid_handle s []
  | some lc =>
    if !lc.isValid then CompleteResult.empty Outcome.invalid_handle s []
    else if prompt.isEmpty then CompleteResult.empty Outcome.empty_prompt s []
    else if !R.has_vocab then CompleteResult.empty Outcome.no_vocab s []
    else
      let n_ctx := R.n_ctx
      let tk := tokenizePrompt R prompt
      let n_tok := tk.1
      if n_tok ≤ 0 then CompleteResult.empty Outcome.tokenization_failed s []
      else
        let tokens := resize 0 tk.2 n_tok.toNat
        if n_tok ≥ n_ctx - 8 then CompleteResult.empty Outcome.prompt_too_long s []
        else
          let s1 := R.seq_rm s
          match prefill R tokens s1 with
          | none => CompleteResult.empty Outcome.prefill_out_of_fuel s1 [Call.seq_rm]
          | some p =>
            if !p.ok then
              CompleteResult.empty Outcome.prefill_decode_failed p.state (Call.seq_rm :: p.trace)
            else if !R.sampler_init then
              CompleteResult.empty Outcome.sampler_failed p.state (Call.seq_rm :: p.trace)
            else
              CompleteResult.ofGen p.trace
                (genLoop R elapsed (capped_max_tokens maxTokens).toNat 0 p.state [] n_tok 0)

/-! ## `nativeInit` and `nativeFree` -/

/-- The fields of `llama_context_params` that `nativeInit` assigns. -/
structure ContextParams where
  n_ctx : Nat
  n_threads : Int
  n_threads_batch : Int
  n_batch : Nat
  n_ubatch : Nat
  no_perf : Bool
deriving DecidableEq, Repr

/-- Model and context creation in llama.cpp; `0` is a null result. -/
structure Loader where
  /-- The call `llama_model_load_from_file(path, mparams)`. -/
  load_model : List Byte → Nat
  /-- The call `llama_init_from_model(model, cparams)`. -/
  init_from_model : Nat → ContextParams → Nat

/-- Library calls recorded by `nativeInit`. -/
inductive InitCall where
  | backend_init
  | load_model (path : List Byte)
  | init_from_model (model : Nat) (params : ContextParams)
  | model_free (model : Nat)
  | warmup_decode (ctx : Nat)
  | seq_rm (ctx : Nat)
deriving DecidableEq, Repr

/-- Library calls recorded by `nativeFree`. -/
inductive FreeCall where
  | llama_free (ctx : Nat)
  | llama_model_free (model : Nat)
deriving DecidableEq, Repr

/-- Undefined behaviour made observable: `delete` on an address that holds no
live `LlamaContext`. -/
inductive Fault where
  | delete_dangling (addr : Nat)
deriving DecidableEq, Repr

/-- Process state the bridge owns: the flag `g_backend_initialized` and the
live `LlamaContext` objects by address. -/
structure World where
  backend_initialized : Bool
  heap : List (Nat × LlamaContext)
deriving DecidableEq, Repr

/-- The address `new LlamaContext()` returns: non-null and not in use. -/
def World.fresh (w : World) : Nat :=
  (w.heap.map Prod.fst).foldr max 0 + 1

/-- Source lines 68-75: `initBackend`. -/
def initBackend (w : World) : World × List InitCall :=
  if !w.backend_initialized then
    ({ w with backend_initialized := true }, [InitCall.backend_init])
  else (w, [])

/-- Source line 89:
`(int)std::max((jint)kMinContextSize, std::min(nCtx, (jint)4096))`. -/
def nCtxClamped (nCtx : Int) : Int := max kMinContextSize (min nCtx 4096)

/-- Source line 90: `(int)std::max((jint)1, std::min(nThreads, (jint)16))`. -/
def nThreadsClamped (nThreads : Int) : Int := max 1 (min nThreads 16)

/-- Source lines 103-110: the context parameters `nativeInit` requests. -/
def cparams (nCtx nThreads : Int) : ContextParams :=
  { n_ctx := (nCtxClamped nCtx % 2 ^ 32).toNat,
    n_threads := nThreadsClamped nThreads,
    n_threads_batch := nThreadsClamped nThreads,
    n_batch := 2048,
    n_ubatch := 512,
    no_perf := false }

/-- What a call of `nativeInit` leaves behind; `handle = 0` is failure. -/
structure InitResult where
  handle : Nat
  world : World
  calls : List InitCall
deriving DecidableEq, Repr

/-- Source lines 77-158: `nativeInit`.  The status of the warm-up decode is
only logged, so it is not a parameter. -/
def nativeInit (L : Loader) (w : World) (modelPath : List Byte) (nCtx nThreads : Int) :
    InitResult :=
  if modelPath.isEmpty then { handle := 0, world := w, calls := [] }
  else
    let ib := initBackend w
    let w := ib.1
    let model := L.load_model modelPath
    if model = 0 then
      { handle := 0, world := w, calls := ib.2 ++ [InitCall.load_model modelPath] }
    else
      let cp := cparams nCtx nThreads
      let ctx := L.init_from_model model cp
      if ctx = 0 then
        { handle := 0, world := w,
          calls := ib.2 ++ [InitCall.load_model modelPath, InitCall.init_from_model model cp,
            InitCall.model_free model] }
      else
        let addr := w.fresh
        let llama_ctx : LlamaContext := { model := model, ctx := ctx }
        { handle := addr,
          world := { w with heap := (addr, llama_ctx) :: w.heap },
          calls := ib.2 ++ [InitCall.load_model modelPath, InitCall.init_from_model model cp,
            InitCall.warmup_decode ctx, InitCall.seq_rm ctx] }

/-- Source lines 39-48: `LlamaContext::~LlamaContext`: the object as the
destructor leaves it and the releases performed. -/
def LlamaContext.destroy (c : LlamaContext) : LlamaContext × List FreeCall :=
  let r1 : LlamaContext × List FreeCall :=
    if c.ctx ≠ 0 then ({ c with ctx := 0 }, [FreeCall.llama_free c.ctx]) else (c, [])
  let r2 : LlamaContext × List FreeCall :=
    if r1.1.model ≠ 0 then ({ r1.1 with model := 0 }, [FreeCall.llama_model_free r1.1.model])
    else (r1.1, [])
  (r2.1, r1.2 ++ r2.2)

/-- Source lines 160-171: `nativeFree`.  `delete llama_ctx` runs the destructor
of the object at the address and returns its storage; the address then holds
no object. -/
def nativeFree (w : World) (handle : Nat) : Except Fault (World × List FreeCall) :=
  if handle = 0 then Except.ok (w, [])
  else
    match w.heap.lookup handle with
    | none => Except.error (Fault.delete_dangling handle)
    | some obj =>
      Except.ok ({ w with heap := w.heap.filter fun e => e.1 != handle }, obj.destroy.2)

/-! ## A test double for the library -/

/-- A deterministic stand-in for llama.cpp.  Its context state is the list of
tokens held in the KV cache of sequence 0; the greedy choice `next` and the
decode status `status` depend on that list only. -/
structure Mock where
  n_ctx : Int
  next : List Token → Token
  status : List Token → Batch → Int
  eog : Token
  piece : Token → List Byte

/-- The tokens a batch carries. -/
def Batch.tokens : Batch → List Token
  | Batch.filled es => es.map BatchEntry.token
  | Batch.get_one t => [t]

/-- The `Runtime` of a `Mock`: one token per prompt byte (byte value plus one),
buffer-too-small answers as llama.cpp gives them (minus the size needed). -/
def Mock.runtime (m : Mock) : Runtime (List Token) where
  n_ctx := m.n_ctx
  has_vocab := true
  tokenize := fun text cap =>
    if text.length ≤ cap then ((text.length : Int), text.map fun b => ((b.val : Int) + 1))
    else (-(text.length : Int), [])
  token_to_piece := fun t cap =>
    if (m.piece t).length ≤ cap then (((m.piece t).length : Int), m.piece t)
    else (-((m.piece t).length : Int), [])
  is_eog := fun t => t == m.eog
  seq_rm := fun _ => []
  decode := fun s b => (m.status s b, if m.status s b = 0 then s ++ b.tokens else s)
  sampler_init := true
  sample := fun s => (m.next s, s)

/-- A valid session object. -/
def liveSession : LlamaContext := { model := 1, ctx := 2 }

/-! ## Reading a trace -/

/-- The tokens returned by `llama_sampler_sample`, in call order. -/
def sampled : List Call → List Token
  | [] => []
  | Call.sample t :: cs => t :: sampled cs
  | Call.seq_rm :: cs => sampled cs
  | Call.prefill_decode _ _ :: cs => sampled cs
  | Call.gen_decode _ _ _ :: cs => sampled cs

/-- The batches handed to `llama_decode` by the prefill, in call order. -/
def prefillBatches : List Call → List (List BatchEntry)
  | [] => []
  | Call.prefill_decode b _ :: cs => b :: prefillBatches cs
  | Call.seq_rm :: cs => prefillBatches cs
  | Call.sample _ :: cs => prefillBatches cs
  | Call.gen_decode _ _ _ :: cs => prefillBatches cs

/-- The values of `n_pos` at the generation-time calls of `llama_decode`, in
call order. -/
def genPositions : List Call → List Int
  | [] => []
  | Call.gen_decode _ p _ :: cs => p :: genPositions cs
  | Call.seq_rm :: cs => genPositions cs
  | Call.sample _ :: cs => genPositions cs
  | Call.prefill_decode _ _ :: cs => genPositions cs

/-- The batch slot the prefill is to send for the prompt token of overall index
`j`, out of `n_tok`: that token at position `j` in sequence 0, with logits
requested only for the last token of the prompt. -/
def promptEntry (tokens : List Token) (n_tok j : Nat) : BatchEntry :=
  { token := tokens.getD j 0, pos := (j : Int), seq_id := 0, logits := decide (j + 1 = n_tok) }

/-- Whether a call is a `llama_decode` that returned a non-zero status. -/
def Call.failed : Call → Bool
  | Call.prefill_decode _ st => st != 0
  | Call.gen_decode _ _ st => st != 0
  | _ => false

/-- The number of generation-time decodes that returned status 0. -/
def genSucceeded : List Call → Nat
  | [] => 0
  | Call.gen_decode _ _ st :: cs => (if st = 0 then 1 else 0) + genSucceeded cs
  | Call.seq_rm :: cs => genSucceeded cs
  | Call.sample _ :: cs => genSucceeded cs
  | Call.prefill_decode _ _ :: cs => genSucceeded cs

/-- No decode in the trace failed. -/
def NoFail (tr : List Call) : Prop :=
  ∀ e ∈ tr, e.failed = false

/-- A failed decode, if the trace has one, is its last call. -/
def FailLast (tr : List Call) : Prop :=
  ∀ pre e post, tr = pre ++ e :: post → e.failed = true → post = []

/-- A trace made of prefill decodes only. -/
def OnlyPrefill (tr : List Call) : Prop :=
  ∀ c ∈ tr, ∃ b st, c = Call.prefill_decode b st

/-! ## Concrete runtimes and requests used as test inputs -/

/-- A loader that always succeeds: model pointer 7, context pointer 9. -/
def demoLoader : Loader :=
  { load_model := fun _ => 7, init_from_model := fun _ _ => 9 }

/-- The process before any session is opened. -/
def emptyWorld : World := { backend_initialized := false, heap := [] }

/-- The call `open("m", 512, 4)` in the empty process. -/
def opened : InitResult := nativeInit demoLoader emptyWorld [109] 512 4

/-- The process after `opened` and one `close` of its handle. -/
def closedWorld : World := { backend_initialized := true, heap := [] }

/-- A mock whose sampler yields `A` (65), `B` (66), then the end marker 0, after
a two-token prompt; a token's text is the one byte of its id. -/
def abMock : Mock :=
  { n_ctx := 512,
    next := fun kv => if kv.length = 2 then 65 else if kv.length = 3 then 66 else 0,
    status := fun _ _ => 0, eog := 0,
    piece := fun t => [Fin.ofNat t.toNat] }

/-- The mock `abMock` with a context of 10 tokens. -/
def shortMock : Mock := { abMock with n_ctx := 10 }

/-- A prompt of 300 bytes, hence 300 tokens for a `Mock`: two prefill chunks. -/
def longPrompt : List Byte := List.replicate 300 104

/-- A vocabulary whose every token is 17 bytes of text, never ends. -/
def wideMock : Mock :=
  { n_ctx := 4096, next := fun _ => 5, status := fun _ _ => 0, eog := 0,
    piece := fun _ => List.replicate 17 97 }

end LlamaJni

/-! # Theorems -/

namespace LlamaJni

section Basic

variable {α : Type}

theorem resize_length (d : α) (v : List α) (n : Nat) : (resize d v n).length = n := by
  simp [resize]
  omega

theorem overwrite_length (buf written : List α) : (overwrite buf written).length = buf.length := by
  simp [overwrite]
  omega

end Basic

section Generation

variable {σ : Type} (R : Runtime σ) (elapsed : Nat → Int)

theorem genLoop_iters_le (left i : Nat) (s : σ) (out : List Byte) (n_pos : Int) (tg : Nat) :
    (genLoop R elapsed left i s out n_pos tg).iters ≤ left := by
  induction left generalizing i s out n_pos tg with
  | zero => simp [genLoop]
  | succ k ih =>
    simp only [genLoop]
    split_ifs
    all_goals simp
    exact ih _ _ _ _ _

theorem genLoop_sampled_le (left i : Nat) (s : σ) (out : List Byte) (n_pos : Int) (tg : Nat) :
    (sampled (genLoop R elapsed left i s out n_pos tg).trace).length ≤
      (genLoop R elapsed left i s out n_pos tg).iters := by
  induction left generalizing i s out n_pos tg with
  | zero => simp [genLoop, sampled]
  | succ k ih =>
    simp only [genLoop]
    split_ifs <;> simp [sampled]
    exact ih _ _ _ _ _

theorem genLoop_budget (left i : Nat) (s : σ) (out : List Byte) (n_pos : Int) (tg : Nat)
    (h : (genLoop R elapsed left i s out n_pos tg).reason = StopReason.TokenBudgetExhausted) :
    (genLoop R elapsed left i s out n_pos tg).iters = left := by
  induction left generalizing i s out n_pos tg with
  | zero => simp [genLoop]
  | succ k ih =>
    simp only [genLoop] at h ⊢
    split_ifs at h ⊢
    simp at h ⊢
    exact ih _ _ _ _ _ h

end Generation

section Prefill

variable {σ : Type} (R : Runtime σ)

theorem sampled_append (a b : List Call) : sampled (a ++ b) = sampled a ++ sampled b := by
  induction a with
  | nil => rfl
  | cons c cs ih => cases c <;> simp [sampled, ih]

theorem genPositions_append (a b : List Call) :
    genPositions (a ++ b) = genPositions a ++ genPositions b := by
  induction a with
  | nil => rfl
  | cons c cs ih => cases c <;> simp [genPositions, ih]

theorem prefillBatches_append (a b : List Call) :
    prefillBatches (a ++ b) = prefillBatches a ++ prefillBatches b := by
  induction a with
  | nil => rfl
  | cons c cs ih => cases c <;> simp [prefillBatches, ih]

theorem OnlyPrefill.sampled {tr : List Call} (h : OnlyPrefill tr) : sampled tr = [] := by
  induction tr with
  | nil => rfl
  | cons c cs ih =>
    obtain ⟨b, st, rfl⟩ := h c (by simp)
    simp only [LlamaJni.sampled]
    exact ih fun c hc => h c (by simp [hc])

theorem OnlyPrefill.genPositions {tr : List Call} (h : OnlyPrefill tr) : genPositions tr = [] := by
  induction tr with
  | nil => rfl
  | cons c cs ih =>
    obtain ⟨b, st, rfl⟩ := h c (by simp)
    simp only [LlamaJni.genPositions]
    exact ih fun c hc => h c (by simp [hc])

theorem prefillLoop_onlyPrefill (tokens : List Token) (n_tok fuel i : Nat) (s : σ)
    (r : PrefillResult σ) (h : prefillLoop R tokens n_tok fuel i s = some r) :
    OnlyPrefill r.trace := by
  induction fuel generalizing i s r with
  | zero =>
    unfold prefillLoop at h
    split_ifs at h
    simp at h; subst h; intro c hc; simp at hc
  | succ k ih =>
    unfold prefillLoop at h
    split_ifs at h with h1
    · simp only at h
      split_ifs at h with h3
      · simp at h; subst h; intro c hc; simp at hc; exact ⟨_, _, hc⟩
      · cases hrec : prefillLoop R tokens n_tok k (i + chunk_size)
            (R.decode s (Batch.filled (fillBatch tokens n_tok i))).2 with
        | none => simp [hrec] at h
        | some r0 =>
          simp [hrec] at h
          subst h
          intro c hc
          simp at hc
          rcases hc with hc | hc
          · exact ⟨_, _, hc⟩
          · exact ih _ _ _ hrec c hc
    · simp at h; subst h; intro c hc; simp at hc

theorem prefillLoop_total (tokens : List Token) (n_tok fuel i : Nat) (s : σ)
    (hfuel : n_tok ≤ i + fuel) : ∃ r, prefillLoop R tokens n_tok fuel i s = some r := by
  induction fuel generalizing i s with
  | zero =>
    unfold prefillLoop
    have : ¬ i < n_tok := by omega
    simp [this]
  | succ k ih =>
    unfold prefillLoop
    split_ifs with h1
    · simp only
      split_ifs with h3
      · exact ⟨_, rfl⟩
      · obtain ⟨r0, hr0⟩ := ih (i + chunk_size)
          (R.decode s (Batch.filled (fillBatch tokens n_tok i))).2
          (by simp only [chunk_size]; omega)
        exact ⟨_, by rw [hr0]⟩
    · exact ⟨_, rfl⟩

theorem prefill_total (tokens : List Token) (s : σ) : ∃ r, prefill R tokens s = some r :=
  prefillLoop_total R tokens tokens.length tokens.length 0 s (by omega)

end Prefill

section Complete

variable {σ : Type} (R : Runtime σ) (elapsed : Nat → Int)

theorem capped_max_tokens_pos (maxTokens : Int) : 1 ≤ capped_max_tokens maxTokens := by
  simp [capped_max_tokens]

theorem capped_max_tokens_toNat (maxTokens : Int) :
    ((capped_max_tokens maxTokens).toNat : Int) = min 256 (max 1 maxTokens) := by
  rw [Int.toNat_of_nonneg (by have := capped_max_tokens_pos maxTokens; omega)]; rfl

/-- The path of `nativeComplete` that reaches the generation loop. -/
theorem nativeComplete_eq_gen (c : LlamaContext) (s : σ) (prompt : List Byte) (maxTokens : Int)
    (p : PrefillResult σ)
    (hvalid : c.isValid = true) (hprompt : prompt ≠ []) (hvocab : R.has_vocab = true)
    (htok : 0 < (tokenizePrompt R prompt).1)
    (hlen : (tokenizePrompt R prompt).1 < R.n_ctx - 8)
    (hpre : prefill R (resize 0 (tokenizePrompt R prompt).2 (tokenizePrompt R prompt).1.toNat)
      (R.seq_rm s) = some p)
    (hok : p.ok = true) (hsmp : R.sampler_init = true) :
    nativeComplete R elapsed (some c) s prompt maxTokens =
      CompleteResult.ofGen p.trace
        (genLoop R elapsed (capped_max_tokens maxTokens).toNat 0 p.state []
          (tokenizePrompt R prompt).1 0) := by
  have h1 : ¬ (tokenizePrompt R prompt).1 ≤ 0 := by omega
  have h2 : ¬ (tokenizePrompt R prompt).1 ≥ R.n_ctx - 8 := by omega
  have h3 : prompt.isEmpty = false := by
    cases prompt with
    | nil => exact absurd rfl hprompt
    | cons _ _ => rfl
  unfold nativeComplete
  simp [hvalid, h3, hvocab, h1, h2, hpre, hok, hsmp]

/-- Every way `nativeComplete` can end: an early return before any library call
on the context, a return after the prefill (failed decode or no sampler), or
the return after the generation loop. -/
theorem nativeComplete_cases (lc : Option LlamaContext) (s : σ) (prompt : List Byte)
    (maxTokens : Int) :
    (∃ o, nativeComplete R elapsed lc s prompt maxTokens = CompleteResult.empty o s [] ∧
      (∀ r, o ≠ Outcome.generated r) ∧ o ≠ Outcome.prefill_decode_failed ∧
      (0 < (tokenizePrompt R prompt).1 ∧ (tokenizePrompt R prompt).1 < R.n_ctx - 8 →
        o ≠ Outcome.prompt_too_long ∧
        ∀ c, lc = some c → c.isValid = true → prompt ≠ [] → R.has_vocab = true → False)) ∨
    (∃ p, prefill R (resize 0 (tokenizePrompt R prompt).2 (tokenizePrompt R prompt).1.toNat)
        (R.seq_rm s) = some p ∧
      0 < (tokenizePrompt R prompt).1 ∧ (tokenizePrompt R prompt).1 < R.n_ctx - 8 ∧
      ((p.ok = false ∧ nativeComplete R elapsed lc s prompt maxTokens =
          CompleteResult.empty Outcome.prefill_decode_failed p.state (Call.seq_rm :: p.trace)) ∨
       (p.ok = true ∧ nativeComplete R elapsed lc s prompt maxTokens =
          CompleteResult.empty Outcome.sampler_failed p.state (Call.seq_rm :: p.trace)) ∨
       (p.ok = true ∧ nativeComplete R elapsed lc s prompt maxTokens =
          CompleteResult.ofGen p.trace
            (genLoop R elapsed (capped_max_tokens maxTokens).toNat 0 p.state []
              (tokenizePrompt R prompt).1 0)))) := by
  cases lc with
  | none =>
    exact Or.inl ⟨Outcome.invalid_handle, by simp [nativeComplete], by simp, by simp,
      fun _ => ⟨by simp, by simp⟩⟩
  | some c =>
    by_cases hv : c.isValid = true
    swap
    · exact Or.inl ⟨Outcome.invalid_handle, by simp [nativeComplete, hv], by simp, by simp,
        fun _ => ⟨by simp, by intro c' hc; cases hc; intro h; exact absurd h hv⟩⟩
    by_cases hp : prompt.isEmpty = true
    · exact Or.inl ⟨Outcome.empty_prompt, by simp [nativeComplete, hv, hp], by simp, by simp,
        fun _ => ⟨by simp, by intro c' _ _ h; exact absurd (List.isEmpty_iff.mp hp) h⟩⟩
    by_cases hvoc : R.has_vocab = true
    swap
    · exact Or.inl ⟨Outcome.no_vocab, by simp [nativeComplete, hv, hp, hvoc], by simp, by simp,
        fun _ => ⟨by simp, by intro c' _ _ _ h; exact absurd h hvoc⟩⟩
    by_cases h1 : (tokenizePrompt R prompt).1 ≤ 0
    · exact Or.inl ⟨Outcome.tokenization_failed, by simp [nativeComplete, hv, hp, hvoc, h1],
        by simp, by simp, by intro h; omega⟩
    by_cases h2 : (tokenizePrompt R prompt).1 ≥ R.n_ctx - 8
    · exact Or.inl ⟨Outcome.prompt_too_long, by simp [nativeComplete, hv, hp, hvoc, h1, h2],
        by simp, by simp, by intro h; omega⟩
    obtain ⟨p, hpre⟩ := prefill_total R
      (resize 0 (tokenizePrompt R prompt).2 (tokenizePrompt R prompt).1.toNat) (R.seq_rm s)
    refine Or.inr ⟨p, hpre, by omega, by omega, ?_⟩
    by_cases hok : p.ok = true
    swap
    · exact Or.inl ⟨by simpa using hok, by simp [nativeComplete, hv, hp, hvoc, h1, h2, hpre, hok]⟩
    by_cases hs : R.sampler_init = true
    swap
    · exact Or.inr (Or.inl ⟨hok, by simp [nativeComplete, hv, hp, hvoc, h1, h2, hpre, hok, hs]⟩)
    · exact Or.inr (Or.inr ⟨hok, by simp [nativeComplete, hv, hp, hvoc, h1, h2, hpre, hok, hs]⟩)

/-- C2 (as amended): the generation loop is entered at most
`min(256, max(1, maxTokens))` times, whatever `maxTokens` is; no more tokens are
sampled than iterations are entered; and the loop leaves through the header
(budget exhausted) only when the count equals that cap. -/
theorem nativeComplete_iteration_cap (lc : Option LlamaContext) (s : σ) (prompt : List Byte)
    (maxTokens : Int) :
    ((nativeComplete R elapsed lc s prompt maxTokens).iters : Int) ≤ min 256 (max 1 maxTokens) ∧
    (sampled (nativeComplete R elapsed lc s prompt maxTokens).trace).length ≤
      (nativeComplete R elapsed lc s prompt maxTokens).iters ∧
    ((nativeComplete R elapsed lc s prompt maxTokens).outcome =
        Outcome.generated StopReason.TokenBudgetExhausted →
      ((nativeComplete R elapsed lc s prompt maxTokens).iters : Int) =
        min 256 (max 1 maxTokens)) := by
  have hcap := capped_max_tokens_pos maxTokens
  have hcap2 := capped_max_tokens_toNat maxTokens
  rcases nativeComplete_cases R elapsed lc s prompt maxTokens with
    ⟨o, h, ho, _, _⟩ | ⟨p, hpre, _, _, ⟨_, h⟩ | ⟨_, h⟩ | ⟨_, h⟩⟩
  · rw [h]
    refine ⟨by simp [CompleteResult.empty], by simp [CompleteResult.empty, sampled], ?_⟩
    intro h'
    exact absurd h' (ho _)
  · have hop := prefillLoop_onlyPrefill R _ _ _ _ _ p hpre
    rw [h]
    exact ⟨by simp [CompleteResult.empty], by simp [CompleteResult.empty, sampled, hop.sampled],
      by simp [CompleteResult.empty]⟩
  · have hop := prefillLoop_onlyPrefill R _ _ _ _ _ p hpre
    rw [h]
    exact ⟨by simp [CompleteResult.empty], by simp [CompleteResult.empty, sampled, hop.sampled],
      by simp [CompleteResult.empty]⟩
  · have hop := prefillLoop_onlyPrefill R _ _ _ _ _ p hpre
    rw [h]
    simp only [CompleteResult.ofGen, sampled, sampled_append, hop.sampled, List.nil_append]
    refine ⟨?_, genLoop_sampled_le R elapsed _ _ _ _ _ _, ?_⟩
    · rw [← hcap2]
      exact_mod_cast genLoop_iters_le R elapsed _ _ _ _ _ _
    · intro h
      rw [← hcap2]
      simp only [Outcome.generated.injEq] at h
      exact_mod_cast genLoop_budget R elapsed _ _ _ _ _ _ h

end Complete

section OutputSize

variable {σ : Type} (R : Runtime σ) (elapsed : Nat → Int)

/-- A run in which nothing stops the loop early: `left` pieces of `c` bytes are
appended. -/
theorem genLoop_uniform (c : Nat)
    (hpiece : ∀ s, (tokenPiece R (R.sample s).1).length = c)
    (hne : ∀ s, R.is_eog (R.sample s).1 = false)
    (hdec : ∀ s t, (R.decode s (Batch.get_one t)).1 = 0)
    (htime : ∀ i, elapsed i ≤ kMaxGenMillis)
    (left i : Nat) (s : σ) (out : List Byte) (n_pos : Int) (tg : Nat)
    (hsize : ∀ j < left, out.length + c * j < kMaxOutputChars)
    (hctx : n_pos + left ≤ R.n_ctx - 2) :
    (genLoop R elapsed left i s out n_pos tg).output.length = out.length + c * left := by
  induction left generalizing i s out n_pos tg with
  | zero => simp [genLoop]
  | succ k ih =>
    have h0 := hsize 0 (by omega)
    have ht : ¬ elapsed i > kMaxGenMillis := not_lt.mpr (htime i)
    have hs : ¬ out.length ≥ kMaxOutputChars := by omega
    have hc : ¬ n_pos ≥ R.n_ctx - 2 := by push_cast at hctx; omega
    simp only [genLoop, ht, hs, hc, if_false, hne, hdec, ne_eq, not_true_eq_false,
      Bool.false_eq_true]
    rw [ih]
    · simp only [List.length_append, hpiece]
      ring
    · intro j hj
      have := hsize (j + 1) (by omega)
      simp only [List.length_append, hpiece]
      rw [Nat.mul_add] at this
      omega
    · push_cast at hctx ⊢
      omega

/-- What the size check does ensure: the loop appends to `output` only while
it holds fewer than `kMaxOutputChars` bytes, so the result exceeds
`kMaxOutputChars - 1` by at most one piece. -/
theorem genLoop_output_bound (L : Nat) (hL : ∀ t, (tokenPiece R t).length ≤ L)
    (left i : Nat) (s : σ) (out : List Byte) (n_pos : Int) (tg : Nat) :
    (genLoop R elapsed left i s out n_pos tg).output.length ≤
      max out.length (kMaxOutputChars - 1 + L) := by
  induction left generalizing i s out n_pos tg with
  | zero => simp [genLoop]
  | succ k ih =>
    simp only [genLoop]
    split_ifs with h1 h2 h3 h4 h5
    · simp
    · simp
    · simp
    · simp
    · have := hL (R.sample s).1
      simp only [kMaxOutputChars, List.length_append] at h2 ⊢
      omega
    · have := hL (R.sample s).1
      have hrec := ih (i + 1) (R.decode (R.sample s).2 (Batch.get_one (R.sample s).1)).2
        (out ++ tokenPiece R (R.sample s).1) (n_pos + 1) (tg + 1)
      simp only [kMaxOutputChars, List.length_append] at h2 hrec ⊢
      omega

end OutputSize

section Examples

theorem ofGen_output {σ : Type} (pre : List Call) (g : GenResult σ) :
    (CompleteResult.ofGen pre g).output = g.output := rfl

theorem ofGen_returned {σ : Type} (pre : List Call) (g : GenResult σ) :
    (CompleteResult.ofGen pre g).returned = c_str g.output := rfl

theorem c_str_nil : c_str [] = [] := rfl

theorem ofGen_iters {σ : Type} (pre : List Call) (g : GenResult σ) :
    (CompleteResult.ofGen pre g).iters = g.iters := rfl

theorem wideMock_prefill :
    prefill wideMock.runtime
      (resize 0 (tokenizePrompt wideMock.runtime [104]).2
        (tokenizePrompt wideMock.runtime [104]).1.toNat) (wideMock.runtime.seq_rm []) =
      some { ok := true, state := [105],
             trace := [Call.prefill_decode
               [{ token := 105, pos := 0, seq_id := 0, logits := true }] 0] } := by
  rfl

theorem wideMock_complete (elapsed : Nat → Int) (maxTokens : Int) :
    nativeComplete wideMock.runtime elapsed (some liveSession) [] [104] maxTokens =
      CompleteResult.ofGen
        [Call.prefill_decode [{ token := 105, pos := 0, seq_id := 0, logits := true }] 0]
        (genLoop wideMock.runtime elapsed (capped_max_tokens maxTokens).toNat 0 [105] [] 1 0) := by
  rw [nativeComplete_eq_gen wideMock.runtime elapsed liveSession [] [104] maxTokens _
    (by rfl) (by simp) (by rfl) (by decide) (by decide) wideMock_prefill rfl rfl]
  rfl

theorem wideMock_genLoop_241 :
    (genLoop wideMock.runtime (fun _ => 0) 241 0 [105] [] 1 0).output.length = 0 + 17 * 241 :=
  genLoop_uniform wideMock.runtime (fun _ => 0) 17 (fun _ => by rfl) (fun _ => by rfl)
    (fun _ _ => by rfl) (fun _ => by show (0 : Int) ≤ 10000; decide) 241 0 [105] [] 1 0
    (by intro j hj; simp only [kMaxOutputChars, List.length_nil]; omega)
    (by decide)

/-- C1 (evaluation at the failing input): with 17-byte pieces and
`maxTokens = 241` the loop runs 241 times; before the last iteration `output`
holds 4080 bytes, which passes the check `output.size() >= kMaxOutputChars`, and
the append makes it 4097 bytes, more than `kMaxOutputChars = 4096`. -/
theorem output_exceeds_kMaxOutputChars :
    (nativeComplete wideMock.runtime (fun _ => 0) (some liveSession) [] [104] 241).output.length
      = 4097 ∧ kMaxOutputChars < 4097 := by
  have h241 : (capped_max_tokens 241).toNat = 241 := by decide
  rw [wideMock_complete, ofGen_output, h241, wideMock_genLoop_241]
  exact ⟨by decide, by decide⟩

/-- C2 (counterexample): with `maxTokens = 0` the loop is entered once and one
token is sampled, while `min(256, maxTokens) = 0`. -/
theorem iteration_cap_fails_at_zero :
    ¬ ((nativeComplete wideMock.runtime (fun _ => 0) (some liveSession) [] [104] 0).iters : Int)
        ≤ min 256 0 := by
  have h : (nativeComplete wideMock.runtime (fun _ => 0) (some liveSession) [] [104] 0).iters
      = 1 := by rfl
  rw [h]
  decide

end Examples

section Session

theorem nCtxClamped_range (nCtx : Int) : 256 ≤ nCtxClamped nCtx ∧ nCtxClamped nCtx ≤ 4096 := by
  simp only [nCtxClamped, kMinContextSize]
  omega

theorem nThreadsClamped_range (nThreads : Int) :
    1 ≤ nThreadsClamped nThreads ∧ nThreadsClamped nThreads ≤ 16 := by
  simp only [nThreadsClamped]
  omega

theorem cparams_n_ctx (nCtx nThreads : Int) :
    ((cparams nCtx nThreads).n_ctx : Int) = max 256 (min nCtx 4096) := by
  have h := nCtxClamped_range nCtx
  have h1 : nCtxClamped nCtx % 2 ^ 32 = nCtxClamped nCtx :=
    Int.emod_eq_of_lt (by omega) (by norm_num; omega)
  simp only [cparams, h1]
  rw [Int.toNat_of_nonneg (by omega)]
  rfl

theorem cparams_clamped (nCtx nThreads : Int) :
    cparams (nCtxClamped nCtx) (nThreadsClamped nThreads) = cparams nCtx nThreads := by
  have h1 : nCtxClamped (nCtxClamped nCtx) = nCtxClamped nCtx := by
    simp only [nCtxClamped, kMinContextSize]; omega
  have h2 : nThreadsClamped (nThreadsClamped nThreads) = nThreadsClamped nThreads := by
    simp only [nThreadsClamped]; omega
  simp only [cparams, h1, h2]

/-- C8: with a non-empty model path, every context-creation request made by
`nativeInit` carries `n_ctx = max(256, min(nCtx, 4096))` and both thread counts
`max(1, min(nThreads, 16))`, and the request is made whenever the model loads.
These values lie in `[256, 4096]` and `[1, 16]`, and `n_ctx` is `nCtx` itself
when `nCtx` is already in range.  The handle is `0` exactly when the model fails
to load or the context cannot be created with the clamped parameters, and the
whole result is the one obtained by passing the clamped values: an out-of-range
argument is never a reason of its own for failure. -/
theorem nativeInit_clamps (L : Loader) (w : World) (modelPath : List Byte)
    (nCtx nThreads : Int) (hpath : modelPath ≠ []) :
    (∀ model params,
        InitCall.init_from_model model params ∈ (nativeInit L w modelPath nCtx nThreads).calls →
        (params.n_ctx : Int) = max 256 (min nCtx 4096) ∧
        params.n_threads = max 1 (min nThreads 16) ∧
        params.n_threads_batch = max 1 (min nThreads 16)) ∧
    (L.load_model modelPath ≠ 0 →
        InitCall.init_from_model (L.load_model modelPath) (cparams nCtx nThreads) ∈
          (nativeInit L w modelPath nCtx nThreads).calls) ∧
    (256 ≤ max 256 (min nCtx 4096) ∧ max 256 (min nCtx 4096) ≤ 4096) ∧
    (256 ≤ nCtx → nCtx ≤ 4096 → max 256 (min nCtx 4096) = nCtx) ∧
    (1 ≤ max 1 (min nThreads 16) ∧ max 1 (min nThreads 16) ≤ 16) ∧
    ((nativeInit L w modelPath nCtx nThreads).handle = 0 ↔
        (L.load_model modelPath = 0 ∨
         L.init_from_model (L.load_model modelPath) (cparams nCtx nThreads) = 0)) ∧
    nativeInit L w modelPath nCtx nThreads =
      nativeInit L w modelPath (nCtxClamped nCtx) (nThreadsClamped nThreads) := by
  have hne : modelPath.isEmpty = false := by
    cases modelPath with
    | nil => exact absurd rfl hpath
    | cons _ _ => rfl
  have hctx := cparams_n_ctx nCtx nThreads
  have hthr : (cparams nCtx nThreads).n_threads = max 1 (min nThreads 16) := rfl
  have hthb : (cparams nCtx nThreads).n_threads_batch = max 1 (min nThreads 16) := rfl
  have hib : ∀ model params, InitCall.init_from_model model params ∉ (initBackend w).2 := by
    intro model params
    unfold initBackend
    split_ifs <;> simp
  refine ⟨?_, ?_, by omega, by omega, by omega, ?_, ?_⟩
  · intro model params hmem
    unfold nativeInit at hmem
    simp only [hne, Bool.false_eq_true, if_false] at hmem
    split_ifs at hmem
    all_goals simp only [List.mem_append, List.mem_cons, List.mem_singleton, hib, false_or,
      InitCall.init_from_model.injEq, List.not_mem_nil, or_false, reduceCtorEq] at hmem
    all_goals exact hmem.2 ▸ ⟨hctx, hthr, hthb⟩
  · intro hload
    unfold nativeInit
    simp only [hne, Bool.false_eq_true, if_false, hload]
    split_ifs <;> simp
  · unfold nativeInit
    simp only [hne, Bool.false_eq_true, if_false]
    split_ifs with h1 h2
    · simp [h1]
    · simp [h1, h2]
    · simp [h1, h2, World.fresh]
  · unfold nativeInit
    simp only [hne, Bool.false_eq_true, if_false, cparams_clamped]

/-- C8 (witness): `open("m", 100000, 0)` against a loader that succeeds asks for
`n_ctx = 4096` and one thread and returns a non-zero handle. -/
theorem nativeInit_clamps_witness :
    ([109] : List Byte) ≠ [] ∧
    (nativeInit demoLoader emptyWorld [109] 100000 0).calls =
      [InitCall.backend_init, InitCall.load_model [109],
       InitCall.init_from_model 7
         { n_ctx := 4096, n_threads := 1, n_threads_batch := 1, n_batch := 2048,
           n_ubatch := 512, no_perf := false },
       InitCall.warmup_decode 9, InitCall.seq_rm 9] ∧
    ((nativeInit demoLoader emptyWorld [109] 100000 0).handle = 0 ↔
        (demoLoader.load_model [109] = 0 ∨
         demoLoader.init_from_model (demoLoader.load_model [109]) (cparams 100000 0) = 0)) :=
  ⟨by decide, by decide,
    (nativeInit_clamps demoLoader emptyWorld [109] 100000 0 (by decide)).2.2.2.2.2.1⟩

/-- A `close` of a live handle releases the context, then the model, once each,
and leaves no object at the address; a further `close` of the same handle is a
`delete` of a dangling pointer. -/
theorem nativeFree_then_dangling (w : World) (handle : Nat) (obj : LlamaContext)
    (h0 : handle ≠ 0) (hlive : w.heap.lookup handle = some obj) :
    nativeFree w handle =
      Except.ok ({ w with heap := w.heap.filter fun e => e.1 != handle }, obj.destroy.2) ∧
    nativeFree { w with heap := w.heap.filter fun e => e.1 != handle } handle =
      Except.error (Fault.delete_dangling handle) := by
  have hgone : ∀ l : List (Nat × LlamaContext),
      (l.filter fun e => e.1 != handle).lookup handle = none := by
    intro l
    induction l with
    | nil => rfl
    | cons e es ih =>
      obtain ⟨a, b⟩ := e
      by_cases he : a = handle
      · rw [List.filter_cons_of_neg (by simp [he])]
        exact ih
      · have hb : (handle == a) = false := by
          simpa using fun h => he h.symm
        have hf : (List.filter (fun e => e.1 != handle) ((a, b) :: es)) =
            (a, b) :: List.filter (fun e => e.1 != handle) es :=
          List.filter_cons_of_pos (by simpa using he)
        rw [hf, List.lookup_cons, hb]
        exact ih
  constructor
  · simp [nativeFree, h0, hlive]
  · simp only [nativeFree, h0, if_false, hgone]

/-- C3 (evaluation at the failing input): `open` returns handle 1; the first
`close(1)` calls `llama_free` on the context and `llama_model_free` on the
model and removes the object; the second `close(1)` deletes a dangling pointer
(undefined behaviour in C++), it is not a no-op.  `close(0)` is a no-op. -/
theorem nativeFree_twice_faults :
    opened.handle = 1 ∧
    nativeFree opened.world 1 =
      Except.ok (closedWorld, [FreeCall.llama_free 9, FreeCall.llama_model_free 7]) ∧
    nativeFree closedWorld 1 = Except.error (Fault.delete_dangling 1) ∧
    nativeFree closedWorld 0 = Except.ok (closedWorld, []) := by
  exact ⟨rfl, rfl, rfl, rfl⟩

end Session

section Traces

theorem genSucceeded_append (a b : List Call) :
    genSucceeded (a ++ b) = genSucceeded a + genSucceeded b := by
  induction a with
  | nil => simp [genSucceeded]
  | cons c cs ih => cases c <;> simp [genSucceeded, ih, Nat.add_assoc]

theorem OnlyPrefill.genSucceeded {tr : List Call} (h : OnlyPrefill tr) :
    genSucceeded tr = 0 := by
  induction tr with
  | nil => rfl
  | cons c cs ih =>
    obtain ⟨b, st, rfl⟩ := h c (by simp)
    simp only [LlamaJni.genSucceeded]
    exact ih fun c hc => h c (by simp [hc])

theorem failLast_nil : FailLast [] := by
  intro pre e post h
  simp at h

theorem failLast_singleton (e : Call) : FailLast [e] := by
  intro pre e' post h _
  cases pre with
  | nil => simp at h; exact h.2
  | cons a as => simp at h

theorem failLast_cons {e : Call} {tr : List Call} (he : e.failed = false) (h : FailLast tr) :
    FailLast (e :: tr) := by
  intro pre e' post heq hf
  cases pre with
  | nil =>
    simp only [List.nil_append, List.cons.injEq] at heq
    rw [← heq.1, he] at hf
    exact absurd hf (by simp)
  | cons a as =>
    simp only [List.cons_append, List.cons.injEq] at heq
    exact h as e' post heq.2 hf

end Traces

section GenerationTrace

variable {σ : Type} (R : Runtime σ) (elapsed : Nat → Int)

theorem genLoop_positions_lt (left i : Nat) (s : σ) (out : List Byte) (n_pos : Int) (tg : Nat) :
    ∀ p ∈ genPositions (genLoop R elapsed left i s out n_pos tg).trace,
      n_pos ≤ p ∧ p < R.n_ctx - 2 := by
  induction left generalizing i s out n_pos tg with
  | zero => simp [genLoop, genPositions]
  | succ k ih =>
    simp only [genLoop]
    split_ifs with h1 h2 h3 h4 h5
    · simp [genPositions]
    · simp [genPositions]
    · simp [genPositions]
    · simp [genPositions]
    · simp only [genPositions, List.mem_singleton, forall_eq]
      omega
    · simp only [genPositions, List.mem_cons]
      rintro p (rfl | hp)
      · omega
      · have := ih _ _ _ _ _ p hp
        omega

theorem genLoop_positions_consecutive (left i : Nat) (s : σ) (out : List Byte) (n_pos : Int)
    (tg : Nat) :
    genPositions (genLoop R elapsed left i s out n_pos tg).trace =
      (List.range (genPositions (genLoop R elapsed left i s out n_pos tg).trace).length).map
        fun (j : Nat) => n_pos + (j : Int) := by
  induction left generalizing i s out n_pos tg with
  | zero => simp [genLoop, genPositions]
  | succ k ih =>
    simp only [genLoop]
    split_ifs with h1 h2 h3 h4 h5
    · simp [genPositions]
    · simp [genPositions]
    · simp [genPositions]
    · simp [genPositions]
    · simp [genPositions, List.range_succ_eq_map]
    · simp only [genPositions, List.length_cons, List.range_succ_eq_map, List.map_cons,
        List.map_map]
      congr 1
      · simp
      · conv_lhs => rw [ih]
        apply List.map_congr_left
        intro j _
        simp only [Function.comp, Nat.succ_eq_add_one]
        push_cast
        ring

theorem genLoop_n_pos (left i : Nat) (s : σ) (out : List Byte) (n_pos : Int) (tg : Nat) :
    (genLoop R elapsed left i s out n_pos tg).n_pos =
      n_pos + (genSucceeded (genLoop R elapsed left i s out n_pos tg).trace : Int) := by
  induction left generalizing i s out n_pos tg with
  | zero => simp [genLoop, genSucceeded]
  | succ k ih =>
    simp only [genLoop]
    split_ifs with h1 h2 h3 h4 h5
    · simp [genSucceeded]
    · simp [genSucceeded]
    · simp [genSucceeded]
    · simp [genSucceeded]
    · simp [genSucceeded, h5]
    · simp only [ne_eq, not_not] at h5
      simp only [genSucceeded, h5, if_true]
      rw [ih]
      push_cast
      ring

theorem genLoop_no_prefill (left i : Nat) (s : σ) (out : List Byte) (n_pos : Int) (tg : Nat) :
    prefillBatches (genLoop R elapsed left i s out n_pos tg).trace = [] ∧
    ∀ b st, Call.prefill_decode b st ∉ (genLoop R elapsed left i s out n_pos tg).trace := by
  induction left generalizing i s out n_pos tg with
  | zero => simp [genLoop, prefillBatches]
  | succ k ih =>
    simp only [genLoop]
    split_ifs with h1 h2 h3 h4 h5
    · simp [prefillBatches]
    · simp [prefillBatches]
    · simp [prefillBatches]
    · simp [prefillBatches]
    · simp [prefillBatches]
    · simp only [prefillBatches, List.mem_cons, reduceCtorEq, false_or]
      exact ih _ _ _ _ _

end GenerationTrace

section PrefillTrace

variable {σ : Type} (R : Runtime σ)

theorem setLogits_concat (l : List BatchEntry) (e : BatchEntry) (n : Nat) (hn : l.length = n) :
    setLogits (l ++ [e]) n = l ++ [{ e with logits := true }] := by
  subst hn
  induction l with
  | nil => rfl
  | cons a as ih => simp [setLogits, ih]

theorem fillBatch_eq (tokens : List Token) (n_tok i : Nat) (hi : i < n_tok) :
    fillBatch tokens n_tok i =
      (List.range' i (min chunk_size (n_tok - i))).map (promptEntry tokens n_tok) := by
  unfold fillBatch
  simp only [List.range'_eq_map_range, List.map_map]
  split_ifs with h
  · have hm : min chunk_size (n_tok - i) = (n_tok - i - 1) + 1 := by
      simp only [chunk_size] at h ⊢; omega
    rw [hm, List.range_succ, List.map_append, List.map_append, List.map_singleton,
      List.map_singleton, Nat.add_sub_cancel, setLogits_concat _ _ _ (by simp)]
    congr 1
    · apply List.map_congr_left
      intro j hj
      have hj' : j < n_tok - i - 1 := List.mem_range.mp hj
      have : ¬ (i + j + 1 = n_tok) := by omega
      simp [promptEntry, this]
    · have : i + (n_tok - i - 1) + 1 = n_tok := by omega
      simp [promptEntry, this]
  · apply List.map_congr_left
    intro j hj
    have hj' : j < min chunk_size (n_tok - i) := List.mem_range.mp hj
    have : ¬ (i + j + 1 = n_tok) := by omega
    simp [promptEntry, this]

theorem fillBatch_length_le (tokens : List Token) (n_tok i : Nat) (hi : i < n_tok) :
    (fillBatch tokens n_tok i).length ≤ 256 ∧ fillBatch tokens n_tok i ≠ [] := by
  have hlen : (fillBatch tokens n_tok i).length = min chunk_size (n_tok - i) := by
    rw [fillBatch_eq tokens n_tok i hi]; simp
  constructor
  · rw [hlen]; simp only [chunk_size]; omega
  · intro h
    rw [h] at hlen
    simp only [chunk_size, List.length_nil] at hlen
    omega

theorem fillBatch_pos (tokens : List Token) (n_tok i : Nat) (hi : i < n_tok) :
    ∀ e ∈ fillBatch tokens n_tok i, 0 ≤ e.pos ∧ e.pos < (n_tok : Int) ∧ e.seq_id = 0 := by
  intro e he
  rw [fillBatch_eq tokens n_tok i hi] at he
  obtain ⟨j, hj, rfl⟩ := List.mem_map.mp he
  have hj' := List.mem_range'_1.mp hj
  have hmin : min chunk_size (n_tok - i) ≤ n_tok - i := Nat.min_le_right _ _
  have hjn : j < n_tok := by omega
  exact ⟨Int.ofNat_nonneg j, Int.ofNat_lt.mpr hjn, rfl⟩

/-- What the prefill loop leaves in the trace. -/
theorem prefillLoop_trace (tokens : List Token) (n_tok fuel i : Nat) (s : σ)
    (r : PrefillResult σ) (h : prefillLoop R tokens n_tok fuel i s = some r) :
    FailLast r.trace ∧
    (r.ok = true → NoFail r.trace) ∧
    (r.ok = false → ∃ b st, Call.prefill_decode b st ∈ r.trace ∧ st ≠ 0) ∧
    (∀ b ∈ prefillBatches r.trace,
      b.length ≤ 256 ∧ b ≠ [] ∧
      ∀ e ∈ b, 0 ≤ e.pos ∧ e.pos < (n_tok : Int) ∧ e.seq_id = 0) ∧
    (r.ok = true →
      (prefillBatches r.trace).flatten =
        (List.range' i (n_tok - i)).map (promptEntry tokens n_tok) ∧
      (prefillBatches r.trace).length = (n_tok - i + 255) / 256) := by
  induction fuel generalizing i s r with
  | zero =>
    unfold prefillLoop at h
    split_ifs at h with h1
    simp only [Option.some.injEq] at h
    subst h
    have h0 : n_tok - i = 0 := by omega
    simp [failLast_nil, NoFail, prefillBatches, h0]
  | succ k ih =>
    unfold prefillLoop at h
    split_ifs at h with h1
    · simp only at h
      split_ifs at h with h3
      · simp only [Option.some.injEq] at h
        subst h
        refine ⟨failLast_singleton _, by simp,
          fun _ => ⟨fillBatch tokens n_tok i, _, List.mem_singleton.mpr rfl, h3⟩, ?_, by simp⟩
        intro b hb
        simp only [prefillBatches, List.mem_singleton] at hb
        subst hb
        exact ⟨(fillBatch_length_le tokens n_tok i h1).1, (fillBatch_length_le tokens n_tok i h1).2,
          fillBatch_pos tokens n_tok i h1⟩
      · simp only [ne_eq, not_not] at h3
        cases hrec : prefillLoop R tokens n_tok k (i + chunk_size)
            (R.decode s (Batch.filled (fillBatch tokens n_tok i))).2 with
        | none => simp [hrec] at h
        | some r0 =>
          simp only [hrec, Option.some.injEq] at h
          subst h
          obtain ⟨ih1, ih2, ih3, ih4, ih5⟩ := ih _ _ _ hrec
          have hev : (Call.prefill_decode (fillBatch tokens n_tok i)
              (R.decode s (Batch.filled (fillBatch tokens n_tok i))).1).failed = false := by
            simp [Call.failed, h3]
          refine ⟨failLast_cons hev ih1, ?_, ?_, ?_, ?_⟩
          · intro hok e he
            simp only [List.mem_cons] at he
            rcases he with rfl | he
            · exact hev
            · exact ih2 hok e he
          · intro hok
            obtain ⟨b, st, hmem, hst⟩ := ih3 hok
            exact ⟨b, st, by simp [hmem], hst⟩
          · intro b hb
            simp only [prefillBatches, List.mem_cons] at hb
            rcases hb with rfl | hb
            · exact ⟨(fillBatch_length_le tokens n_tok i h1).1,
                (fillBatch_length_le tokens n_tok i h1).2, fillBatch_pos tokens n_tok i h1⟩
            · exact ih4 b hb
          · intro hok
            obtain ⟨hflat, hlen⟩ := ih5 hok
            constructor
            · simp only [prefillBatches, List.flatten_cons, hflat, fillBatch_eq tokens n_tok i h1,
                ← List.map_append]
              congr 1
              by_cases hc : n_tok - i ≤ chunk_size
              · have h0 : n_tok - (i + chunk_size) = 0 := by omega
                rw [h0, Nat.min_eq_right hc]
                simp
              · have hmin : min chunk_size (n_tok - i) = chunk_size := by omega
                rw [hmin, List.range'_append_1]
                congr 1
                omega
            · simp only [prefillBatches, List.length_cons, hlen, chunk_size]
              omega
    · simp only [Option.some.injEq] at h
      subst h
      have h0 : n_tok - i = 0 := by omega
      simp [failLast_nil, NoFail, prefillBatches, h0]

end PrefillTrace

section Requests

variable {σ : Type} (R : Runtime σ) (elapsed : Nat → Int)

theorem mem_prefillBatches {tr : List Call} {b : List BatchEntry} :
    b ∈ prefillBatches tr ↔ ∃ st, Call.prefill_decode b st ∈ tr := by
  induction tr with
  | nil => simp [prefillBatches]
  | cons c cs ih =>
    cases c <;> simp [prefillBatches, ih]
    constructor
    · rintro (rfl | ⟨st, h⟩)
      · exact ⟨_, Or.inl ⟨rfl, rfl⟩⟩
      · exact ⟨st, Or.inr h⟩
    · rintro ⟨st, ⟨rfl, rfl⟩ | h⟩
      · exact Or.inl rfl
      · exact Or.inr ⟨st, h⟩

theorem mem_genPositions {tr : List Call} {p : Int} :
    p ∈ genPositions tr ↔ ∃ t st, Call.gen_decode t p st ∈ tr := by
  induction tr with
  | nil => simp [genPositions]
  | cons c cs ih =>
    cases c <;> simp [genPositions, ih]
    constructor
    · rintro (rfl | ⟨t, st, h⟩)
      · exact ⟨_, _, Or.inl ⟨rfl, rfl, rfl⟩⟩
      · exact ⟨t, st, Or.inr h⟩
    · rintro ⟨t, st, ⟨rfl, rfl, rfl⟩ | h⟩
      · exact Or.inl rfl
      · exact Or.inr ⟨t, st, h⟩

theorem OnlyPrefill.not_gen {tr : List Call} (h : OnlyPrefill tr) (t : Token) (p st : Int) :
    Call.gen_decode t p st ∉ tr := by
  intro hmem
  obtain ⟨b, st', heq⟩ := h _ hmem
  cases heq

/-- C4: for a valid session and a non-empty prompt, if the token count `n_tok`
is at least `n_ctx - 8` the result is the empty string (both `output` and the
string returned) and the context saw no
call at all (no KV-cache removal, no decode); and if `0 < n_tok < n_ctx - 8`
(with a vocabulary present) the request is not rejected as too long: the cache
of sequence 0 is cleared and the first prompt chunk is decoded. -/
theorem nativeComplete_length_gate (c : LlamaContext) (s : σ) (prompt : List Byte)
    (maxTokens : Int) (hvalid : c.isValid = true) (hprompt : prompt ≠ []) :
    ((tokenizePrompt R prompt).1 ≥ R.n_ctx - 8 →
      (nativeComplete R elapsed (some c) s prompt maxTokens).output = [] ∧
      (nativeComplete R elapsed (some c) s prompt maxTokens).trace = [] ∧
      (nativeComplete R elapsed (some c) s prompt maxTokens).state = s ∧
      (nativeComplete R elapsed (some c) s prompt maxTokens).returned = []) ∧
    (0 < (tokenizePrompt R prompt).1 → (tokenizePrompt R prompt).1 < R.n_ctx - 8 →
      R.has_vocab = true →
      (nativeComplete R elapsed (some c) s prompt maxTokens).outcome ≠ Outcome.prompt_too_long ∧
      ∃ b st rest, (nativeComplete R elapsed (some c) s prompt maxTokens).trace =
        Call.seq_rm :: Call.prefill_decode b st :: rest) := by
  rcases nativeComplete_cases R elapsed (some c) s prompt maxTokens with
    ⟨o, h, ho, _, hlong⟩ | ⟨p, hpre, h1, h2, hcase⟩
  · refine ⟨fun _ => by simp [h, CompleteResult.empty], fun h1 h2 hv => ?_⟩
    exact ((hlong ⟨h1, h2⟩).2 c rfl hvalid hprompt hv).elim
  · refine ⟨fun h => by omega, fun _ _ _ => ?_⟩
    have hlen : (resize (0 : Token) (tokenizePrompt R prompt).2
        (tokenizePrompt R prompt).1.toNat).length = ((tokenizePrompt R prompt).1.toNat - 1) + 1 := by
      rw [resize_length]; omega
    have hfirst : ∃ b st rest, p.trace = Call.prefill_decode b st :: rest := by
      unfold prefill at hpre
      rw [hlen] at hpre
      unfold prefillLoop at hpre
      simp only [Nat.zero_lt_succ, if_true] at hpre
      split_ifs at hpre with h3
      · simp only [Option.some.injEq] at hpre
        subst hpre
        exact ⟨_, _, _, rfl⟩
      · split at hpre
        · simp at hpre
        · simp only [Option.some.injEq] at hpre
          subst hpre
          exact ⟨_, _, _, rfl⟩
    obtain ⟨b, st, rest, hp⟩ := hfirst
    rcases hcase with ⟨_, h⟩ | ⟨_, h⟩ | ⟨_, h⟩
    · rw [h]; exact ⟨by simp [CompleteResult.empty], b, st, rest, by simp [CompleteResult.empty, hp]⟩
    · rw [h]; exact ⟨by simp [CompleteResult.empty], b, st, rest, by simp [CompleteResult.empty, hp]⟩
    · rw [h]
      exact ⟨by simp [CompleteResult.ofGen], b, st,
        rest ++ (genLoop R elapsed (capped_max_tokens maxTokens).toNat 0 p.state []
          (tokenizePrompt R prompt).1 0).trace, by simp [CompleteResult.ofGen, hp]⟩

/-- C4 (witness): with `n_ctx = 10` the two-token prompt `"hi"` meets
`n_tok >= n_ctx - 8` and is refused with the cache untouched; with
`n_ctx = 512` the same prompt is accepted. -/
theorem nativeComplete_length_gate_witness :
    ((nativeComplete shortMock.runtime (fun _ => 0) (some liveSession) [7, 7] [104, 105] 50).output
        = [] ∧
      (nativeComplete shortMock.runtime (fun _ => 0) (some liveSession) [7, 7] [104, 105] 50).trace
        = [] ∧
      (nativeComplete shortMock.runtime (fun _ => 0) (some liveSession) [7, 7] [104, 105] 50).state
        = [7, 7] ∧
      (nativeComplete shortMock.runtime (fun _ => 0) (some liveSession) [7, 7]
        [104, 105] 50).returned = []) ∧
    ((nativeComplete abMock.runtime (fun _ => 0) (some liveSession) [7, 7] [104, 105] 50).outcome
        ≠ Outcome.prompt_too_long ∧
      ∃ b st rest,
        (nativeComplete abMock.runtime (fun _ => 0) (some liveSession) [7, 7] [104, 105] 50).trace
          = Call.seq_rm :: Call.prefill_decode b st :: rest) :=
  ⟨(nativeComplete_length_gate shortMock.runtime (fun _ => 0) liveSession [7, 7] [104, 105] 50
      rfl (by simp)).1 (by decide),
   (nativeComplete_length_gate abMock.runtime (fun _ => 0) liveSession [7, 7] [104, 105] 50
      rfl (by simp)).2 (by decide) (by decide) rfl⟩

theorem tokens_length (prompt : List Byte) (h : 0 < (tokenizePrompt R prompt).1) :
    (((resize (0 : Token) (tokenizePrompt R prompt).2
      (tokenizePrompt R prompt).1.toNat).length : Nat) : Int) = (tokenizePrompt R prompt).1 := by
  rw [resize_length, Int.toNat_of_nonneg (by omega)]

/-- C6: every decode requested by `nativeComplete` is at a position strictly
below `n_ctx - 2`.  A prefill decode is issued only when `n_tok < n_ctx - 8`, and
each of its entries has a position in `[0, n_tok)`.  A generation decode is
issued at the tracked position `n_pos`, after the check `n_pos < n_ctx - 2`; the
tracked positions of the generation decodes are `n_tok, n_tok + 1, ...` in call
order, and at the end `n_pos` is `n_tok` plus the number of generation decodes
that succeeded. -/
theorem nativeComplete_decode_positions (lc : Option LlamaContext) (s : σ)
    (prompt : List Byte) (maxTokens : Int) :
    (∀ b st, Call.prefill_decode b st ∈ (nativeComplete R elapsed lc s prompt maxTokens).trace →
        (tokenizePrompt R prompt).1 < R.n_ctx - 8 ∧
        ∀ e ∈ b, 0 ≤ e.pos ∧ e.pos < (tokenizePrompt R prompt).1 ∧ e.pos < R.n_ctx - 2) ∧
    (∀ t p st, Call.gen_decode t p st ∈ (nativeComplete R elapsed lc s prompt maxTokens).trace →
        (tokenizePrompt R prompt).1 ≤ p ∧ p < R.n_ctx - 2) ∧
    genPositions (nativeComplete R elapsed lc s prompt maxTokens).trace =
      (List.range (genPositions (nativeComplete R elapsed lc s prompt maxTokens).trace).length).map
        (fun (j : Nat) => (tokenizePrompt R prompt).1 + (j : Int)) ∧
    (∀ reason, (nativeComplete R elapsed lc s prompt maxTokens).outcome = Outcome.generated reason →
      (nativeComplete R elapsed lc s prompt maxTokens).n_pos =
        (tokenizePrompt R prompt).1 +
          (genSucceeded (nativeComplete R elapsed lc s prompt maxTokens).trace : Int)) := by
  rcases nativeComplete_cases R elapsed lc s prompt maxTokens with
    ⟨o, h, ho, _, _⟩ | ⟨p, hpre, h1, h2, hcase⟩
  · rw [h]
    refine ⟨by simp [CompleteResult.empty], by simp [CompleteResult.empty],
      by simp [CompleteResult.empty, genPositions], ?_⟩
    intro reason hr
    exact absurd hr (ho reason)
  · have hop := prefillLoop_onlyPrefill R _ _ _ _ _ p hpre
    have htr := prefillLoop_trace R _ _ _ _ _ p hpre
    have hlen := tokens_length R prompt h1
    have hpos : ∀ b st, Call.prefill_decode b st ∈ p.trace →
        (tokenizePrompt R prompt).1 < R.n_ctx - 8 ∧
        ∀ e ∈ b, 0 ≤ e.pos ∧ e.pos < (tokenizePrompt R prompt).1 ∧ e.pos < R.n_ctx - 2 := by
      intro b st hb
      refine ⟨h2, fun e he => ?_⟩
      have := (htr.2.2.2.1 b (mem_prefillBatches.mpr ⟨st, hb⟩)).2.2 e he
      rw [hlen] at this
      omega
    rcases hcase with ⟨_, h⟩ | ⟨_, h⟩ | ⟨_, h⟩
    · rw [h]
      refine ⟨?_, ?_, by simp [CompleteResult.empty, genPositions, hop.genPositions],
        by simp [CompleteResult.empty]⟩
      · intro b st hb
        simp only [CompleteResult.empty, List.mem_cons, reduceCtorEq, false_or] at hb
        exact hpos b st hb
      · intro t q st hb
        simp only [CompleteResult.empty, List.mem_cons, reduceCtorEq, false_or] at hb
        exact absurd hb (hop.not_gen t q st)
    · rw [h]
      refine ⟨?_, ?_, by simp [CompleteResult.empty, genPositions, hop.genPositions],
        by simp [CompleteResult.empty]⟩
      · intro b st hb
        simp only [CompleteResult.empty, List.mem_cons, reduceCtorEq, false_or] at hb
        exact hpos b st hb
      · intro t q st hb
        simp only [CompleteResult.empty, List.mem_cons, reduceCtorEq, false_or] at hb
        exact absurd hb (hop.not_gen t q st)
    · rw [h]
      simp only [CompleteResult.ofGen, genPositions, genPositions_append, hop.genPositions,
        List.nil_append, genSucceeded, genSucceeded_append, hop.genSucceeded, Nat.zero_add]
      refine ⟨?_, ?_, genLoop_positions_consecutive R elapsed _ _ _ _ _ _, ?_⟩
      · intro b st hb
        simp only [List.mem_cons, reduceCtorEq, false_or, List.mem_append] at hb
        rcases hb with hb | hb
        · exact hpos b st hb
        · exact absurd hb ((genLoop_no_prefill R elapsed _ _ _ _ _ _).2 b st)
      · intro t q st hb
        simp only [List.mem_cons, reduceCtorEq, false_or, List.mem_append] at hb
        rcases hb with hb | hb
        · exact absurd hb (hop.not_gen t q st)
        · exact genLoop_positions_lt R elapsed _ _ _ _ _ _ q (mem_genPositions.mpr ⟨t, st, hb⟩)
      · intro reason _
        exact genLoop_n_pos R elapsed _ _ _ _ _ _

theorem logits_once (f : Nat → BatchEntry) (n : Nat) (hn : 0 < n)
    (hf : ∀ j, (f j).logits = decide (j + 1 = n)) :
    (((List.range n).map f).filter fun e => e.logits).length = 1 := by
  obtain ⟨m, rfl⟩ : ∃ m, n = m + 1 := ⟨n - 1, by omega⟩
  rw [List.range_succ, List.map_append, List.filter_append]
  have h1 : ((List.range m).map f).filter (fun e => e.logits) = [] := by
    rw [List.filter_eq_nil_iff]
    intro e he
    obtain ⟨j, hj, rfl⟩ := List.mem_map.mp he
    have hj' : j < m := List.mem_range.mp hj
    have : ¬ (j + 1 = m + 1) := by omega
    simp [hf, this]
  rw [h1]
  simp [hf]

/-- C7: for a request that passes the length check (`0 < n_tok < n_ctx - 8`)
and whose prefill decodes all return status 0, the prefill issues exactly
`ceil(n_tok / 256)` decodes, each with a batch of 1 to 256 entries; the batches
concatenated in call order are the prompt tokens in order, the `j`-th carrying
position `j`, sequence id 0 and the logits flag exactly when `j = n_tok - 1`; so
exactly one entry has the flag set. -/
theorem nativeComplete_prefill_batches (c : LlamaContext) (s : σ) (prompt : List Byte)
    (maxTokens : Int) (hvalid : c.isValid = true) (hprompt : prompt ≠ [])
    (hvocab : R.has_vocab = true)
    (htok : 0 < (tokenizePrompt R prompt).1)
    (hlen : (tokenizePrompt R prompt).1 < R.n_ctx - 8)
    (hdec : ∀ b st,
      Call.prefill_decode b st ∈ (nativeComplete R elapsed (some c) s prompt maxTokens).trace →
      st = 0) :
    (prefillBatches (nativeComplete R elapsed (some c) s prompt maxTokens).trace).length =
      ((tokenizePrompt R prompt).1.toNat + 255) / 256 ∧
    (∀ b ∈ prefillBatches (nativeComplete R elapsed (some c) s prompt maxTokens).trace,
      1 ≤ b.length ∧ b.length ≤ 256) ∧
    (prefillBatches (nativeComplete R elapsed (some c) s prompt maxTokens).trace).flatten =
      (List.range (tokenizePrompt R prompt).1.toNat).map (fun (j : Nat) =>
        ({ token := (resize 0 (tokenizePrompt R prompt).2
              (tokenizePrompt R prompt).1.toNat).getD j 0,
           pos := (j : Int), seq_id := 0,
           logits := decide (j + 1 = (tokenizePrompt R prompt).1.toNat) } : BatchEntry)) ∧
    ((prefillBatches (nativeComplete R elapsed (some c) s prompt maxTokens).trace).flatten.filter
      fun e => e.logits).length = 1 := by
  rcases nativeComplete_cases R elapsed (some c) s prompt maxTokens with
    ⟨o, h, ho, _, hlong⟩ | ⟨p, hpre, h1, h2, hcase⟩
  · exact ((hlong ⟨htok, hlen⟩).2 c rfl hvalid hprompt hvocab).elim
  · have htr := prefillLoop_trace R _ _ _ _ _ p hpre
    have hn : (resize (0 : Token) (tokenizePrompt R prompt).2
        (tokenizePrompt R prompt).1.toNat).length = (tokenizePrompt R prompt).1.toNat :=
      resize_length _ _ _
    have hnpos : 0 < (tokenizePrompt R prompt).1.toNat := by omega
    have hbatches : prefillBatches (nativeComplete R elapsed (some c) s prompt maxTokens).trace =
        prefillBatches p.trace := by
      rcases hcase with ⟨_, h⟩ | ⟨_, h⟩ | ⟨_, h⟩
      · rw [h]; simp [CompleteResult.empty, prefillBatches]
      · rw [h]; simp [CompleteResult.empty, prefillBatches]
      · rw [h]
        simp [CompleteResult.ofGen, prefillBatches, prefillBatches_append,
          (genLoop_no_prefill R elapsed _ _ _ _ _ _).1]
    have hok : p.ok = true := by
      rcases hcase with ⟨hf, h⟩ | ⟨hk, _⟩ | ⟨hk, _⟩
      · obtain ⟨b, st, hmem, hst⟩ := htr.2.2.1 hf
        have : Call.prefill_decode b st ∈
            (nativeComplete R elapsed (some c) s prompt maxTokens).trace := by
          rw [h]; simp [CompleteResult.empty, hmem]
        exact absurd (hdec b st this) hst
      · exact hk
      · exact hk
    obtain ⟨hflat, hcount⟩ := htr.2.2.2.2 hok
    rw [hn] at hflat hcount
    simp only [Nat.sub_zero] at hflat hcount
    have hflat' : (prefillBatches p.trace).flatten =
        (List.range (tokenizePrompt R prompt).1.toNat).map (fun (j : Nat) =>
          ({ token := (resize 0 (tokenizePrompt R prompt).2
                (tokenizePrompt R prompt).1.toNat).getD j 0,
             pos := (j : Int), seq_id := 0,
             logits := decide (j + 1 = (tokenizePrompt R prompt).1.toNat) } : BatchEntry)) := by
      rw [hflat, ← List.range_eq_range']
      rfl
    rw [hbatches]
    refine ⟨hcount, ?_, hflat', ?_⟩
    · intro b hb
      have := htr.2.2.2.1 b hb
      refine ⟨?_, this.1⟩
      cases b with
      | nil => exact absurd rfl this.2.1
      | cons _ _ => simp
    · rw [hflat']
      exact logits_once _ _ hnpos (fun j => rfl)

theorem noFail_iff_all (tr : List Call) :
    NoFail tr ↔ tr.all (fun e => !e.failed) = true := by
  simp [NoFail]

theorem NoFail.prefill_status {tr : List Call} (h : NoFail tr) (b : List BatchEntry) (st : Int)
    (hmem : Call.prefill_decode b st ∈ tr) : st = 0 := by
  simpa [Call.failed] using h _ hmem

set_option maxRecDepth 1000000 in
theorem longPrompt_tokens : (tokenizePrompt abMock.runtime longPrompt).1 = 300 := by rfl

set_option maxRecDepth 1000000 in
theorem longPrompt_noFail :
    NoFail (nativeComplete abMock.runtime (fun _ => 0) (some liveSession) [] longPrompt 50).trace :=
  (noFail_iff_all _).mpr (by rfl)

/-- C7 (witness): a 300-token prompt is prefilled in `(300 + 255) / 256 = 2`
decodes and one entry asks for logits. -/
theorem nativeComplete_prefill_batches_witness :
    (prefillBatches
      (nativeComplete abMock.runtime (fun _ => 0) (some liveSession) [] longPrompt 50).trace).length
      = ((tokenizePrompt abMock.runtime longPrompt).1.toNat + 255) / 256 ∧
    ((prefillBatches (nativeComplete abMock.runtime (fun _ => 0) (some liveSession) []
      longPrompt 50).trace).flatten.filter fun e => e.logits).length = 1 :=
  have h := nativeComplete_prefill_batches abMock.runtime (fun _ => 0) liveSession []
    longPrompt 50 rfl (by decide) rfl (by rw [longPrompt_tokens]; decide)
    (by rw [longPrompt_tokens]; decide) (fun b st hb => longPrompt_noFail.prefill_status b st hb)
  ⟨h.1, h.2.2.2⟩

/-- Two runs of the loop from the same state, under two clocks neither of
which trips the time limit, are the same run. -/
theorem genLoop_clock_irrelevant (e1 e2 : Nat → Int) (left i : Nat) (s : σ) (out : List Byte)
    (n_pos : Int) (tg : Nat)
    (h1 : (genLoop R e1 left i s out n_pos tg).reason ≠ StopReason.Timeout)
    (h2 : (genLoop R e2 left i s out n_pos tg).reason ≠ StopReason.Timeout) :
    genLoop R e1 left i s out n_pos tg = genLoop R e2 left i s out n_pos tg := by
  induction left generalizing i s out n_pos tg with
  | zero => simp [genLoop]
  | succ k ih =>
    by_cases t1 : e1 i > kMaxGenMillis
    · simp [genLoop, t1] at h1
    by_cases t2 : e2 i > kMaxGenMillis
    · simp [genLoop, t2] at h2
    simp only [genLoop, t1, t2, if_false] at h1 h2 ⊢
    split_ifs with c1 c2 c3 c4
    · rfl
    · rfl
    · rfl
    · rfl
    · simp only [c1, c2, c3, c4, if_false, if_true, Bool.false_eq_true] at h1 h2
      rw [ih _ _ _ _ _ h1 h2]

/-- C10: over a runtime in which clearing sequence 0 leaves a context state
that does not depend on what the cache held before, a request with the same
session, prompt and `maxTokens` gives the same output, makes the same
library calls and returns the same string, from any two states of the context, in particular from the
state a first call left behind, provided the 10,000 ms limit stops neither
run.  (A `Runtime` is deterministic: the sampled token and the decode status
are functions of the context state.) -/
theorem nativeComplete_deterministic (e1 e2 : Nat → Int) (lc : Option LlamaContext)
    (s1 s2 : σ) (prompt : List Byte) (maxTokens : Int)
    (hclear : ∀ a b : σ, R.seq_rm a = R.seq_rm b)
    (h1 : (nativeComplete R e1 lc s1 prompt maxTokens).outcome ≠
      Outcome.generated StopReason.Timeout)
    (h2 : (nativeComplete R e2 lc s2 prompt maxTokens).outcome ≠
      Outcome.generated StopReason.Timeout) :
    (nativeComplete R e1 lc s1 prompt maxTokens).output =
      (nativeComplete R e2 lc s2 prompt maxTokens).output ∧
    (nativeComplete R e1 lc s1 prompt maxTokens).trace =
      (nativeComplete R e2 lc s2 prompt maxTokens).trace ∧
    (nativeComplete R e1 lc s1 prompt maxTokens).returned =
      (nativeComplete R e2 lc s2 prompt maxTokens).returned := by
  cases lc with
  | none => simp [nativeComplete, CompleteResult.empty]
  | some c =>
    by_cases hv : c.isValid = true
    swap
    · simp [nativeComplete, hv, CompleteResult.empty]
    by_cases hp : prompt.isEmpty = true
    · simp [nativeComplete, hv, hp, CompleteResult.empty]
    by_cases hvoc : R.has_vocab = true
    swap
    · simp [nativeComplete, hv, hp, hvoc, CompleteResult.empty]
    by_cases ht : (tokenizePrompt R prompt).1 ≤ 0
    · simp [nativeComplete, hv, hp, hvoc, ht, CompleteResult.empty]
    by_cases hl : (tokenizePrompt R prompt).1 ≥ R.n_ctx - 8
    · simp [nativeComplete, hv, hp, hvoc, ht, hl, CompleteResult.empty]
    obtain ⟨p, hpre⟩ := prefill_total R
      (resize 0 (tokenizePrompt R prompt).2 (tokenizePrompt R prompt).1.toNat) (R.seq_rm s1)
    have hpre2 := hpre
    rw [hclear s1 s2] at hpre2
    by_cases hok : p.ok = true
    swap
    · simp [nativeComplete, hv, hp, hvoc, ht, hl, hpre, hpre2, hok, CompleteResult.empty]
    by_cases hs : R.sampler_init = true
    swap
    · simp [nativeComplete, hv, hp, hvoc, ht, hl, hpre, hpre2, hok, hs, CompleteResult.empty]
    have r1 : nativeComplete R e1 (some c) s1 prompt maxTokens = CompleteResult.ofGen p.trace
        (genLoop R e1 (capped_max_tokens maxTokens).toNat 0 p.state []
          (tokenizePrompt R prompt).1 0) := by
      simp [nativeComplete, hv, hp, hvoc, ht, hl, hpre, hok, hs]
    have r2 : nativeComplete R e2 (some c) s2 prompt maxTokens = CompleteResult.ofGen p.trace
        (genLoop R e2 (capped_max_tokens maxTokens).toNat 0 p.state []
          (tokenizePrompt R prompt).1 0) := by
      simp [nativeComplete, hv, hp, hvoc, ht, hl, hpre2, hok, hs]
    rw [r1] at h1 ⊢
    rw [r2] at h2 ⊢
    rw [genLoop_clock_irrelevant R e1 e2 _ _ _ _ _ _
      (fun h => h1 (by simp [CompleteResult.ofGen, h]))
      (fun h => h2 (by simp [CompleteResult.ofGen, h]))]
    exact ⟨rfl, rfl, rfl⟩

end Requests

section MockFacts

theorem overwrite_same_length {α : Type} (buf w : List α) (h : w.length = buf.length) :
    overwrite buf w = w := by
  simp [overwrite, ← h]

theorem overwrite_short {α : Type} (buf w : List α) (h : w.length ≤ buf.length) :
    overwrite buf w = w ++ buf.drop w.length := by
  simp [overwrite, List.take_of_length_le h]

theorem resize_append_self {α : Type} (d : α) (v w : List α) :
    resize d (v ++ w) v.length = v := by
  simp [resize]

/-- For a `Mock` the text appended for a token is the token's piece: the
64-byte buffer and the retry lose nothing. -/
theorem Mock.tokenPiece_eq (m : Mock) (t : Token) : tokenPiece m.runtime t = m.piece t := by
  unfold tokenPiece
  simp only [List.length_replicate, resize_length]
  by_cases h : (m.piece t).length ≤ 64
  · have c1 : m.runtime.token_to_piece t 64 = (((m.piece t).length : Int), m.piece t) := by
      simp [Mock.runtime, h]
    have hneg : ¬ ((m.piece t).length : Int) < 0 := by omega
    rw [c1]
    simp only [hneg, if_false]
    by_cases h0 : (m.piece t).length = 0
    · have hnil : m.piece t = [] := List.length_eq_zero.mp h0
      simp [hnil]
    · have hpos : ((m.piece t).length : Int) > 0 := by omega
      simp only [hpos, if_true, Int.toNat_ofNat]
      rw [overwrite_short _ _ (by simpa using h), resize_append_self]
  · have c1 : m.runtime.token_to_piece t 64 = (-((m.piece t).length : Int), []) := by
      simp [Mock.runtime, h]
    have c2 : m.runtime.token_to_piece t (m.piece t).length =
        (((m.piece t).length : Int), m.piece t) := by
      simp [Mock.runtime]
    have hneg : -((m.piece t).length : Int) < 0 := by omega
    have hpos : ((m.piece t).length : Int) > 0 := by omega
    rw [c1]
    simp only [hneg, if_true, neg_neg, Int.toNat_ofNat]
    rw [c2]
    simp only [hpos, if_true, Int.toNat_ofNat]
    rw [overwrite_same_length _ _ (by rw [resize_length])]
    have := resize_append_self (0 : Byte) (m.piece t) []
    simpa using this

end MockFacts

section Witnesses

/-- C10 (witness): a second call, started from the cache the first call left
(`[105, 106, 65, 66]`) and under another clock, returns what the first call
returned. -/
theorem nativeComplete_deterministic_witness :
    (nativeComplete abMock.runtime (fun _ => 0) (some liveSession) [] [104, 105] 50).output =
      (nativeComplete abMock.runtime (fun i => 3 * i) (some liveSession)
        (nativeComplete abMock.runtime (fun _ => 0) (some liveSession) [] [104, 105] 50).state
        [104, 105] 50).output :=
  (nativeComplete_deterministic abMock.runtime (fun _ => 0) (fun i => 3 * i) (some liveSession) []
    (nativeComplete abMock.runtime (fun _ => 0) (some liveSession) [] [104, 105] 50).state
    [104, 105] 50 (fun _ _ => rfl)
    (by
      rw [show (nativeComplete abMock.runtime (fun _ => 0) (some liveSession) [] [104, 105]
        50).outcome = Outcome.generated StopReason.EndOfGeneration from rfl]
      simp)
    (by
      rw [show (nativeComplete abMock.runtime (fun i => 3 * i) (some liveSession)
        (nativeComplete abMock.runtime (fun _ => 0) (some liveSession) [] [104, 105] 50).state
        [104, 105] 50).outcome = Outcome.generated StopReason.EndOfGeneration from rfl]
      simp)).1

end Witnesses

end LlamaJni
